import Mathlib

/-!
Shallow embedding of the webhooker repository's core: the command runner
(`src/core/runner.ts`), the chain executor (`CommandRunner.runCommands`),
and the HTTP request dispatcher (`src/transport/server.ts`), plus the
argument-normalization step shared between the Zod schema
(`src/config/schema.ts`) and the runner.

Modelling conventions:
* Machine time is `Nat` milliseconds.  Synchronous code takes zero time;
  time advances only while a spawned process runs.  The chain deadline
  timer (`setTimeout(() => controller.abort(), timeoutMs)`) is modelled by
  the predicate "elapsed `t` satisfies `timeoutMs ≤ t`": the abort signal
  is observed as fired at any check point whose elapsed time has reached
  the timeout.
* The behaviour of each spawned OS process (its captured stdout/stderr,
  its wall-clock duration and its exit code, `none` meaning the JS `null`
  of a launch failure or signal death) is an oracle `Nat → Behavior`
  indexed by the step's position in the chain, since the host OS is not
  part of the program.
* ISO-8601 timestamp strings are abstracted to their underlying `Nat`
  millisecond clock readings.
* WHATWG `URL` parsing is modelled only as far as the claims need it: the
  pathname is the part of the request target before the first `?` or `#`,
  and query parameters are split on `&` / first "=" without
  percent-decoding (the configurations in question use plain ASCII keys).
-/

/-- JS scalar appearing in a config `args` entry: a string or a number
(config numbers are integers in every fixture; `String(n)` agrees with
`toString` on integers). -/
inductive ArgScalar where
  | str (s : String)
  | num (n : Int)
deriving DecidableEq, Repr

/-- One element of the schema-parsed `args` array
(`(string | number | (string | number)[])[]`): a scalar or a
one-level nested array of scalars. -/
inductive ArgItem where
  | scalar (a : ArgScalar)
  | list (xs : List ArgScalar)
deriving DecidableEq, Repr

/-- JS `String(x)` on a config scalar. -/
def strOfScalar : ArgScalar → String
  | .str s => s
  | .num n => toString n

/-- `normalizeArgs` from `src/core/runner.ts`: flatten one level of
nesting and stringify every element. -/
def normalizeArgs (args : List ArgItem) : List String :=
  match args with
  | [] => []
  | .scalar a :: rest => strOfScalar a :: normalizeArgs rest
  | .list xs :: rest => xs.map strOfScalar ++ normalizeArgs rest

/-- One-level flattening of an `args` entry into its scalars (the
reference shape of what `normalizeArgs` stringifies). -/
def itemScalars : ArgItem → List ArgScalar
  | .scalar a => [a]
  | .list xs => xs

/-- Command Spec (`commandSchema` output): working directory, executable,
raw (schema-shaped) argument array. -/
structure Command where
  cwd : String
  command : String
  args : List ArgItem
deriving DecidableEq, Repr

/-- Oracle for one spawned OS process: captured output, wall-clock
duration and exit code (`none` = JS `null`: launch failure or
signal-terminated). -/
structure Behavior where
  stdout : String
  stderr : String
  durationMs : Nat
  exitCode : Option Int
deriving DecidableEq, Repr

/-- `CommandResult` from `src/core/runner.ts` (timestamps as `Nat`
clock readings). -/
structure CommandResult where
  cwd : String
  command : String
  args : List String
  stdout : String
  stderr : String
  durationMs : Nat
  startedAt : Nat
  finishedAt : Nat
  exitCode : Option Int
deriving DecidableEq, Repr

/-- Result assembled by `runSingleCommand` for a process started at
clock reading `t` that behaved as `b`. -/
def mkResult (c : Command) (b : Behavior) (t : Nat) : CommandResult :=
  { cwd := c.cwd
    command := c.command
    args := normalizeArgs c.args
    stdout := b.stdout
    stderr := b.stderr
    durationMs := b.durationMs
    startedAt := t
    finishedAt := t + b.durationMs
    exitCode := b.exitCode }

/-- The loop body of `CommandRunner.runCommands`, started at step index
`i` with elapsed time `t`: check the abort signal at the loop head, run
the step, append its result, and break when `result.exitCode !== 0` or
the signal has fired.  Returns the accumulated results and the final
elapsed time. -/
def runCommandsAux (T : Nat) (beh : Nat → Behavior) :
    List Command → Nat → Nat → List CommandResult × Nat
  | [], _, t => ([], t)
  | c :: rest, i, t =>
    if T ≤ t then ([], t)
    else
      let b := beh i
      let r := mkResult c b t
      let t' := t + b.durationMs
      if r.exitCode ≠ some 0 ∨ T ≤ t' then ([r], t')
      else
        let rec_ := runCommandsAux T beh rest (i + 1) t'
        (r :: rec_.1, rec_.2)

/-- Aggregate returned by `runCommands`. -/
structure ChainResult where
  results : List CommandResult
  timedOut : Bool
deriving DecidableEq, Repr

/-- `CommandRunner.runCommands`: run the chain from time 0 and report
whether the deadline signal had fired when the loop returned. -/
def runCommands (T : Nat) (commands : List Command) (beh : Nat → Behavior) :
    ChainResult :=
  let out := runCommandsAux T beh commands 0 0
  { results := out.1, timedOut := decide (T ≤ out.2) }

/-- Cumulative duration of the `k` process behaviours starting at step
index `i`. -/
def prefixDurFrom (beh : Nat → Behavior) : Nat → Nat → Nat
  | _, 0 => 0
  | i, k + 1 => (beh i).durationMs + prefixDurFrom beh (i + 1) k

/-- Cumulative duration of the first `k` process behaviours of a chain. -/
def prefixDur (beh : Nat → Behavior) (k : Nat) : Nat :=
  prefixDurFrom beh 0 k

/-! ## Dispatcher data model (`src/config/schema.ts`, `src/transport/server.ts`) -/

/-- `bearerSourceSchema`: where the bearer credential is read from. -/
inductive BearerSource where
  | header
  | query
deriving DecidableEq, Repr

/-- A schema-validated `Route` (defaults already applied by the Zod
schema; `bearerKey` is `none` when absent from the config). -/
structure Route where
  method : String
  path : String
  bearerKey : Option String
  bearerSource : BearerSource
  commands : List Command
  timeoutMs : Nat
  includeLogsInResponse : Bool
deriving DecidableEq, Repr

/-- A schema-validated `Config` (log level is irrelevant to dispatch and
omitted). -/
structure Config where
  host : String
  port : Nat
  routes : List Route
deriving Repr

/-- An inbound HTTP request as the dispatcher sees it: method (after the
`?? GET` default), raw request target (`req.url`), and the
`Authorization` header when present. -/
structure Request where
  method : String
  url : String
  authorization : Option String
deriving DecidableEq, Repr

/-- Split a character list on a separator character (the
`String.split`-style grouping used for `&`-separated query elements). -/
def splitOnChar (sep : Char) : List Char → List (List Char)
  | [] => [[]]
  | c :: rest =>
    let r := splitOnChar sep rest
    if c == sep then [] :: r
    else
      match r with
      | [] => [[c]]
      | g :: gs => (c :: g) :: gs

/-- Whether `p` is an initial segment of `s` (character lists). -/
def hasPrefixChars : List Char → List Char → Bool
  | [], _ => true
  | _ :: _, [] => false
  | p :: ps, c :: cs => p == c && hasPrefixChars ps cs

/-- JS `String.prototype.trim` on a character list (the whitespace class
is abstracted to `Char.isWhitespace`; the tokens in question are plain
ASCII). -/
def trimChars (cs : List Char) : List Char :=
  ((cs.dropWhile Char.isWhitespace).reverse.dropWhile
    Char.isWhitespace).reverse

/-- Pathname of a request target: the part before the first `?` or `#`
(dot-segment and percent normalization of the WHATWG parser are outside
the modelled fragment; the routes in question use plain literal paths). -/
def urlPathname (url : String) : String :=
  String.mk (url.data.takeWhile fun c => c != '?' && c != '#')

/-- Query characters of a request target: the part after the first `?`,
up to a `#`; empty when the target has no query. -/
def queryChars (url : String) : List Char :=
  match url.data.dropWhile (fun c => c != '?' && c != '#') with
  | '?' :: rest => rest.takeWhile fun c => c != '#'
  | _ => []

/-- `URLSearchParams.get`: the value of the first `k=v` query element
whose key is `key` (`k` alone means value `""`, the part after the first
`=` is the value, empty elements are skipped), or `none`. -/
def searchParamGet (url : String) (key : String) : Option String :=
  (splitOnChar '&' (queryChars url)).findSome? fun g =>
    if g.isEmpty then none
    else if (g.takeWhile fun c => c != '=') = key.data then
      some (String.mk ((g.dropWhile fun c => c != '=').drop 1))
    else none

/-- `WebhookServer.findRoute`: first route whose method and path equal
the request's method and pathname. -/
def findRoute (routes : List Route) (method pathname : String) :
    Option Route :=
  routes.find? fun r => r.method = method ∧ r.path = pathname

/-- `WebhookServer.getBearerToken`: for `query` source, the first of the
`bearer` then `token` query parameters; for `header` source, the
`Authorization` value with the `Bearer ` prefix removed and trimmed, an
empty remainder (or a missing/ill-formed header) giving `none`.  A JS
empty-string header fails the falsy check `!auth` in the source; here it
fails the prefix check, with the same `none` outcome. -/
def getBearerToken (req : Request) (route : Route) : Option String :=
  match route.bearerSource with
  | .query =>
    (searchParamGet req.url "bearer").orElse fun _ =>
      searchParamGet req.url "token"
  | .header =>
    match req.authorization with
    | none => none
    | some auth =>
      if hasPrefixChars "Bearer ".data auth.data then
        let tok := String.mk (trimChars (auth.data.drop 7))
        if tok = "" then none else some tok
      else none

/-- One element of the `commandLogs` response array: the per-step
sub-view deliberately omitting `exitCode` and the timestamps. -/
structure CommandLog where
  cwd : String
  command : String
  args : List String
  stdout : String
  stderr : String
  durationMs : Nat
deriving DecidableEq, Repr

/-- Projection of a `CommandResult` into its `commandLogs` entry
(`WebhookServer.runRoute`). -/
def toCommandLog (r : CommandResult) : CommandLog :=
  { cwd := r.cwd
    command := r.command
    args := r.args
    stdout := r.stdout
    stderr := r.stderr
    durationMs := r.durationMs }

/-- JSON body of a 200 response (`WebhookServer.runRoute`); timestamps
as `Nat` clock readings, `commandLogs = none` when the key is absent. -/
structure ResponseBody where
  startedAt : Nat
  finishedAt : Nat
  durationMs : Nat
  totalCommands : Nat
  successCount : Nat
  timedOut : Bool
  commandLogs : Option (List CommandLog)
deriving DecidableEq, Repr

/-- `WebhookServer.runRoute`: run the chain and shape the response
body.  The chain starts at clock reading 0; the route-level clock reads
the same final elapsed time as the chain's own. -/
def runRoute (route : Route) (beh : Nat → Behavior) : ResponseBody :=
  let out := runCommandsAux route.timeoutMs beh route.commands 0 0
  let results := out.1
  { startedAt := 0
    finishedAt := out.2
    durationMs := out.2
    totalCommands := route.commands.length
    successCount :=
      (results.filter fun r => r.exitCode = some 0).length
    timedOut := decide (route.timeoutMs ≤ out.2)
    commandLogs :=
      if route.includeLogsInResponse then some (results.map toCommandLog)
      else none }

/-- An HTTP response: empty-bodied status (404/403) or a JSON body with
status. -/
inductive Response where
  | empty (status : Nat)
  | json (status : Nat) (body : ResponseBody)
deriving DecidableEq, Repr

/-- The authorization gate of `createRequestListener`: pass when
`bearerKey` is absent or the empty string, otherwise require the
extracted token to equal it exactly. -/
def authOk (req : Request) (route : Route) : Bool :=
  match route.bearerKey with
  | none => true
  | some key =>
    if key = "" then true
    else getBearerToken req route = some key

/-- `createRequestListener` on one request: match the route by method
and pathname, apply the authorization gate, then run the chain and
respond 200 with the shaped body.  The 500 fault branch of the source is
unreachable here because the modelled runner is total (its promise always
resolves; see `errorEventHandler`). -/
def handleRequest (cfg : Config) (beh : Nat → Behavior) (req : Request) :
    Response :=
  match findRoute cfg.routes req.method (urlPathname req.url) with
  | none => .empty 404
  | some route =>
    if authOk req route then .json 200 (runRoute route beh)
    else .empty 403

/-! ## Promise settlement (the `error` event path of `runSingleCommand`) -/

/-- State of a JS promise over result type `α` and error type `ε`: it
settles exactly once; `resolve`/`reject` calls on a settled promise are
ignored by the host. -/
inductive PromiseState (α ε : Type) where
  | pending
  | resolved (a : α)
  | rejected (e : ε)
deriving DecidableEq, Repr

/-- JS `resolve`: settles a pending promise, no-op otherwise. -/
def promiseResolve {α ε : Type} (ps : PromiseState α ε) (a : α) :
    PromiseState α ε :=
  match ps with
  | .pending => .resolved a
  | s => s

/-- JS `reject`: settles a pending promise, no-op otherwise. -/
def promiseReject {α ε : Type} (ps : PromiseState α ε) (e : ε) :
    PromiseState α ε :=
  match ps with
  | .pending => .rejected e
  | s => s

/-- The best-effort result the `error` handler of `runSingleCommand`
assembles: captured output so far, elapsed duration, `exitCode: null`. -/
def errorPathResult (c : Command) (stdout stderr : String)
    (startTs endTs : Nat) : CommandResult :=
  { cwd := c.cwd
    command := c.command
    args := normalizeArgs c.args
    stdout := stdout
    stderr := stderr
    durationMs := endTs - startTs
    startedAt := startTs
    finishedAt := endTs
    exitCode := none }

/-- The `proc.on('error', ...)` handler of `runSingleCommand`, acting on
the promise's settlement state: `resolve(bestEffortResult)` followed by
`reject(err)`. -/
def errorEventHandler {ε : Type} (r : CommandResult) (err : ε)
    (ps : PromiseState CommandResult ε) : PromiseState CommandResult ε :=
  promiseReject (promiseResolve ps r) err

/-- Token the spec's authorization text describes, written from the
spec's words for comparison with the source's `getBearerToken`: for
`bearerSource == query`, the first of the `bearer` or `token` query
parameters (in that order, first non-absent wins); for
`bearerSource == header`, an `Authorization` header of the exact form
`Bearer <token>` (case-sensitive prefix), the token trimmed, an empty
result treated as no token. -/
def specExtractToken (req : Request) (route : Route) : Option String :=
  match route.bearerSource with
  | .query =>
    match searchParamGet req.url "bearer" with
    | some v => some v
    | none => searchParamGet req.url "token"
  | .header =>
    match req.authorization with
    | some auth =>
      if hasPrefixChars "Bearer ".data auth.data then
        let tok := String.mk (trimChars (auth.data.drop 7))
        if tok = "" then none else some tok
      else none
    | none => none

/-! ## Concrete fixtures used by witnesses and counterexamples -/

/-- Sample Command Spec. -/
def cmdEx : Command :=
  { cwd := ".", command := "echo", args := [.scalar (.str "ok")] }

/-- Process oracle: every step succeeds quickly. -/
def behOk : Nat → Behavior := fun _ =>
  { stdout := "ok", stderr := "", durationMs := 5, exitCode := some 0 }

/-- Process oracle: the first step exits 1 quickly. -/
def behStop : Nat → Behavior := fun i =>
  if i = 0 then { stdout := "", stderr := "", durationMs := 5, exitCode := some 1 }
  else { stdout := "", stderr := "", durationMs := 1, exitCode := some 0 }

/-- Process oracle: every step takes 200 ms and exits 0. -/
def behSlow : Nat → Behavior := fun _ =>
  { stdout := "", stderr := "", durationMs := 200, exitCode := some 0 }

/-- Process oracle: the second step fails to launch (`exitCode` null). -/
def behLaunch : Nat → Behavior := fun i =>
  if i = 0 then { stdout := "a", stderr := "", durationMs := 5, exitCode := some 0 }
  else { stdout := "", stderr := "", durationMs := 3, exitCode := none }

/-- Sample routes and configuration (mirroring the test fixtures). -/
def routeHealth : Route :=
  { method := "GET", path := "/health", bearerKey := none,
    bearerSource := .header, commands := [cmdEx], timeoutMs := 100,
    includeLogsInResponse := true }

def routeSecure : Route :=
  { method := "POST", path := "/secure", bearerKey := some "secret123",
    bearerSource := .header, commands := [cmdEx], timeoutMs := 100,
    includeLogsInResponse := false }

def routeQuery : Route :=
  { method := "GET", path := "/q", bearerKey := some "q",
    bearerSource := .query, commands := [cmdEx, cmdEx], timeoutMs := 100,
    includeLogsInResponse := false }

def routeTwo : Route :=
  { method := "POST", path := "/two", bearerKey := none,
    bearerSource := .header, commands := [cmdEx, cmdEx], timeoutMs := 100,
    includeLogsInResponse := false }

def cfgEx : Config :=
  { host := "127.0.0.1", port := 3000,
    routes := [routeHealth, routeSecure, routeQuery, routeTwo] }

def reqHealth : Request :=
  { method := "GET", url := "/health", authorization := none }

def reqSecure : Request :=
  { method := "POST", url := "/secure",
    authorization := some "Bearer secret123" }

def reqQueryOk : Request :=
  { method := "GET", url := "/q?bearer=q", authorization := none }

def reqQueryBad : Request :=
  { method := "GET", url := "/q?bearer=wrong", authorization := none }

def reqTwo : Request :=
  { method := "POST", url := "/two", authorization := none }

def reqNone : Request :=
  { method := "GET", url := "/nope?x=1", authorization := none }

/-- Best-effort result assembled on the error path for a command whose
spawn failed 3 ms after start. -/
def errResultEx : CommandResult := errorPathResult cmdEx "" "" 0 3

/-! ## Lemmas about the chain executor loop -/

theorem mkResult_exitCode (c : Command) (b : Behavior) (t : Nat) :
    (mkResult c b t).exitCode = b.exitCode := rfl

theorem mkResult_durationMs (c : Command) (b : Behavior) (t : Nat) :
    (mkResult c b t).durationMs = b.durationMs := rfl

theorem runCommandsAux_length_le (T : Nat) (beh : Nat → Behavior)
    (cmds : List Command) (i t : Nat) :
    (runCommandsAux T beh cmds i t).1.length ≤ cmds.length := by
  induction cmds generalizing i t with
  | nil => simp [runCommandsAux]
  | cons c rest ih =>
    simp only [runCommandsAux]
    by_cases h1 : T ≤ t
    · simp [h1]
    · simp only [h1, if_false]
      by_cases h2 :
          (mkResult c (beh i) t).exitCode ≠ some 0 ∨
            T ≤ t + (beh i).durationMs
      · simp [h2]
      · simp only [h2, if_false]
        have := ih (i + 1) (t + (beh i).durationMs)
        simp only [List.length_cons]
        omega

theorem runCommandsAux_dropLast_exit (T : Nat) (beh : Nat → Behavior)
    (cmds : List Command) (i t : Nat) :
    ∀ r ∈ (runCommandsAux T beh cmds i t).1.dropLast,
      r.exitCode = some 0 := by
  induction cmds generalizing i t with
  | nil => simp [runCommandsAux]
  | cons c rest ih =>
    simp only [runCommandsAux]
    by_cases h1 : T ≤ t
    · simp [h1]
    · simp only [h1, if_false]
      by_cases h2 :
          (mkResult c (beh i) t).exitCode ≠ some 0 ∨
            T ≤ t + (beh i).durationMs
      · simp [h2]
      · simp only [h2, if_false]
        have hex : (mkResult c (beh i) t).exitCode = some 0 := by
          by_contra hne
          exact h2 (Or.inl hne)
        intro r hr
        cases hrec :
            (runCommandsAux T beh rest (i + 1)
              (t + (beh i).durationMs)).1 with
        | nil =>
          rw [hrec] at hr
          simp at hr
        | cons x xs =>
          rw [hrec] at hr
          have hstep :
              (mkResult c (beh i) t :: x :: xs).dropLast =
                mkResult c (beh i) t :: (x :: xs).dropLast := rfl
          rw [hstep, List.mem_cons] at hr
          rcases hr with hr | hr
          · rw [hr]; exact hex
          · have := ih (i + 1) (t + (beh i).durationMs) r
            rw [hrec] at this
            exact this hr

theorem runCommandsAux_length_le_filter (T : Nat) (beh : Nat → Behavior)
    (cmds : List Command) (i t : Nat) :
    (runCommandsAux T beh cmds i t).1.length ≤
      ((runCommandsAux T beh cmds i t).1.filter
        fun r => r.exitCode = some 0).length + 1 := by
  induction cmds generalizing i t with
  | nil => simp [runCommandsAux]
  | cons c rest ih =>
    simp only [runCommandsAux]
    by_cases h1 : T ≤ t
    · simp [h1]
    · simp only [h1, if_false]
      by_cases h2 :
          (mkResult c (beh i) t).exitCode ≠ some 0 ∨
            T ≤ t + (beh i).durationMs
      · simp [h2]
      · simp only [h2, if_false]
        have hex : (mkResult c (beh i) t).exitCode = some 0 := by
          by_contra hne
          exact h2 (Or.inl hne)
        have := ih (i + 1) (t + (beh i).durationMs)
        simp [List.filter_cons, hex]
        omega

theorem runCommandsAux_map_spec (T : Nat) (beh : Nat → Behavior)
    (cmds : List Command) (i t : Nat) :
    (runCommandsAux T beh cmds i t).1.map
        (fun r => (r.cwd, r.command, r.args)) =
      (cmds.take (runCommandsAux T beh cmds i t).1.length).map
        (fun c => (c.cwd, c.command, normalizeArgs c.args)) := by
  induction cmds generalizing i t with
  | nil => simp [runCommandsAux]
  | cons c rest ih =>
    simp only [runCommandsAux]
    by_cases h1 : T ≤ t
    · simp [h1]
    · by_cases h2 : (beh i).exitCode ≠ some 0 ∨ T ≤ t + (beh i).durationMs
      · simp [h1, h2, mkResult]
      · have ih2 := ih (i + 1) (t + (beh i).durationMs)
        simp [h1, h2, mkResult, ih2]

theorem runCommandsAux_map_exit (T : Nat) (beh : Nat → Behavior)
    (cmds : List Command) (i t : Nat) :
    (runCommandsAux T beh cmds i t).1.map (fun r => r.exitCode) =
      (List.range (runCommandsAux T beh cmds i t).1.length).map
        (fun j => (beh (i + j)).exitCode) := by
  induction cmds generalizing i t with
  | nil => simp [runCommandsAux]
  | cons c rest ih =>
    simp only [runCommandsAux]
    by_cases h1 : T ≤ t
    · simp [h1]
    · by_cases h2 : (beh i).exitCode ≠ some 0 ∨ T ≤ t + (beh i).durationMs
      · simp [h1, h2, mkResult, List.range_succ]
      · have ih2 := ih (i + 1) (t + (beh i).durationMs)
        simp [h1, h2, mkResult, ih2, List.range_succ_eq_map,
          List.map_map]
        intro j _
        have hidx : i + 1 + j = i + (j + 1) := by omega
        rw [hidx]

theorem runCommandsAux_snd (T : Nat) (beh : Nat → Behavior)
    (cmds : List Command) (i t : Nat) :
    (runCommandsAux T beh cmds i t).2 =
      t + ((runCommandsAux T beh cmds i t).1.map
        fun r => r.durationMs).sum := by
  induction cmds generalizing i t with
  | nil => simp [runCommandsAux]
  | cons c rest ih =>
    simp only [runCommandsAux]
    by_cases h1 : T ≤ t
    · simp [h1]
    · by_cases h2 : (beh i).exitCode ≠ some 0 ∨ T ≤ t + (beh i).durationMs
      · simp [h1, h2, mkResult]
      · have ih2 := ih (i + 1) (t + (beh i).durationMs)
        simp [h1, h2, mkResult, ih2]
        omega

theorem prefixDurFrom_zero (beh : Nat → Behavior) (i : Nat) :
    prefixDurFrom beh i 0 = 0 := rfl

theorem prefixDurFrom_succ (beh : Nat → Behavior) (i k : Nat) :
    prefixDurFrom beh i (k + 1) =
      (beh i).durationMs + prefixDurFrom beh (i + 1) k := rfl

theorem runCommandsAux_cons_abort (T : Nat) (beh : Nat → Behavior)
    (c : Command) (rest : List Command) (i t : Nat) (h1 : T ≤ t) :
    runCommandsAux T beh (c :: rest) i t = ([], t) := by
  simp only [runCommandsAux]
  rw [if_pos h1]

theorem runCommandsAux_cons_break (T : Nat) (beh : Nat → Behavior)
    (c : Command) (rest : List Command) (i t : Nat)
    (h1 : ¬ T ≤ t)
    (h2 : (beh i).exitCode ≠ some 0 ∨ T ≤ t + (beh i).durationMs) :
    runCommandsAux T beh (c :: rest) i t =
      ([mkResult c (beh i) t], t + (beh i).durationMs) := by
  simp only [runCommandsAux]
  rw [if_neg h1]
  rw [if_pos]
  exact h2

theorem runCommandsAux_cons_cont (T : Nat) (beh : Nat → Behavior)
    (c : Command) (rest : List Command) (i t : Nat)
    (h1 : ¬ T ≤ t)
    (hex : (beh i).exitCode = some 0)
    (hlt : t + (beh i).durationMs < T) :
    runCommandsAux T beh (c :: rest) i t =
      (mkResult c (beh i) t ::
          (runCommandsAux T beh rest (i + 1)
            (t + (beh i).durationMs)).1,
        (runCommandsAux T beh rest (i + 1)
          (t + (beh i).durationMs)).2) := by
  simp only [runCommandsAux]
  rw [if_neg h1]
  rw [if_neg]
  push_neg
  refine ⟨?_, by omega⟩
  rw [mkResult_exitCode]
  exact hex

theorem runCommandsAux_length_eq_iff (T : Nat) (beh : Nat → Behavior)
    (cmds : List Command) (i t : Nat) (h : t < T) :
    (runCommandsAux T beh cmds i t).1.length = cmds.length ↔
      ∀ j, j + 1 < cmds.length →
        ((beh (i + j)).exitCode = some 0 ∧
          t + prefixDurFrom beh i (j + 1) < T) := by
  induction cmds generalizing i t with
  | nil => simp [runCommandsAux]
  | cons c rest ih =>
    have h1 : ¬ T ≤ t := by omega
    by_cases h2 : (beh i).exitCode ≠ some 0 ∨ T ≤ t + (beh i).durationMs
    · rw [runCommandsAux_cons_break T beh c rest i t h1 h2]
      cases rest with
      | nil =>
        constructor
        · intro _ j hj
          simp at hj
        · intro _
          rfl
      | cons d ds =>
        constructor
        · intro hlen
          exfalso
          simp at hlen
        · intro hall
          exfalso
          have h0 := hall 0 (by simp only [List.length_cons]; omega)
          rw [prefixDurFrom_succ, prefixDurFrom_zero] at h0
          rcases h2 with h2 | h2
          · exact h2 h0.1
          · omega
    · push_neg at h2
      obtain ⟨hex, hlt⟩ := h2
      rw [runCommandsAux_cons_cont T beh c rest i t h1 hex hlt]
      simp only [List.length_cons]
      have ih2 := ih (i + 1) (t + (beh i).durationMs) (by omega)
      constructor
      · intro hlen j hj
        have hlen2 : (runCommandsAux T beh rest (i + 1)
            (t + (beh i).durationMs)).1.length = rest.length := by omega
        have hall := ih2.mp hlen2
        cases j with
        | zero =>
          refine ⟨by simpa using hex, ?_⟩
          rw [prefixDurFrom_succ, prefixDurFrom_zero]
          omega
        | succ j =>
          have hj2 : j + 1 < rest.length := by omega
          obtain ⟨e, hplt⟩ := hall j hj2
          constructor
          · have hidx : i + 1 + j = i + (j + 1) := by omega
            rw [hidx] at e
            exact e
          · rw [prefixDurFrom_succ]
            omega
      · intro hall
        have hall2 : ∀ j, j + 1 < rest.length →
            ((beh (i + 1 + j)).exitCode = some 0 ∧
              t + (beh i).durationMs +
                prefixDurFrom beh (i + 1) (j + 1) < T) := by
          intro j hj
          obtain ⟨e, hplt⟩ := hall (j + 1) (by omega)
          have hidx : i + (j + 1) = i + 1 + j := by omega
          rw [hidx] at e
          rw [prefixDurFrom_succ] at hplt
          exact ⟨e, by omega⟩
        have := ih2.mpr hall2
        omega

theorem runCommandsAux_firstFail (T : Nat) (beh : Nat → Behavior)
    (cmds : List Command) (i t k : Nat)
    (hk1 : 1 ≤ k) (hk : k ≤ cmds.length)
    (hprev : ∀ j, j + 1 < k → (beh (i + j)).exitCode = some 0)
    (hfail : (beh (i + (k - 1))).exitCode ≠ some 0)
    (htime : t + prefixDurFrom beh i (k - 1) < T) :
    (runCommandsAux T beh cmds i t).1.length = k ∧
      ((runCommandsAux T beh cmds i t).1.filter
        fun r => r.exitCode = some 0).length = k - 1 := by
  induction cmds generalizing i t k with
  | nil =>
    exfalso
    simp at hk
    omega
  | cons c rest ih =>
    have h1 : ¬ T ≤ t := by omega
    match k, hk1 with
    | 1, _ =>
      have hfail1 : (beh i).exitCode ≠ some 0 := by
        simpa using hfail
      rw [runCommandsAux_cons_break T beh c rest i t h1 (Or.inl hfail1)]
      constructor
      · rfl
      · simp [List.filter_cons, mkResult_exitCode, hfail1]
    | (k'' + 2), _ =>
      have hex : (beh i).exitCode = some 0 := by
        simpa using hprev 0 (by omega)
      have hsub : k'' + 2 - 1 = k'' + 1 := rfl
      rw [hsub] at hfail htime
      rw [prefixDurFrom_succ] at htime
      have hlt : t + (beh i).durationMs < T := by omega
      rw [runCommandsAux_cons_cont T beh c rest i t h1 hex hlt]
      have hk2 : k'' + 1 ≤ rest.length := by
        simp only [List.length_cons] at hk
        omega
      have hprev2 : ∀ j, j + 1 < k'' + 1 →
          (beh (i + 1 + j)).exitCode = some 0 := by
        intro j hj
        have := hprev (j + 1) (by omega)
        have hidx : i + (j + 1) = i + 1 + j := by omega
        rwa [hidx] at this
      have hfail2 : (beh (i + 1 + (k'' + 1 - 1))).exitCode ≠ some 0 := by
        have hidx : i + 1 + (k'' + 1 - 1) = i + (k'' + 1) := by omega
        rwa [hidx]
      have htime2 : t + (beh i).durationMs +
          prefixDurFrom beh (i + 1) (k'' + 1 - 1) < T := by
        have hsub2 : k'' + 1 - 1 = k'' := rfl
        rw [hsub2]
        omega
      obtain ⟨ihl, ihf⟩ :=
        ih (i + 1) (t + (beh i).durationMs) (k'' + 1) (by omega)
          hk2 hprev2 hfail2 htime2
      constructor
      · simp only [List.length_cons]
        omega
      · simp only [List.filter_cons, mkResult_exitCode, hex]
        simp only [decide_eq_true_eq, if_pos, List.length_cons]
        simp [ihf]

/-! ## Lemmas about the dispatcher -/

theorem specExtractToken_eq_getBearerToken (req : Request)
    (route : Route) :
    specExtractToken req route = getBearerToken req route := by
  unfold specExtractToken getBearerToken
  cases route.bearerSource with
  | query =>
    cases searchParamGet req.url "bearer" with
    | none => simp [Option.orElse]
    | some v => simp [Option.orElse]
  | header =>
    cases req.authorization with
    | none => rfl
    | some auth => rfl

theorem handleRequest_no_route (cfg : Config) (beh : Nat → Behavior)
    (req : Request)
    (h : findRoute cfg.routes req.method (urlPathname req.url) = none) :
    handleRequest cfg beh req = .empty 404 := by
  unfold handleRequest
  rw [h]

theorem handleRequest_authorized (cfg : Config) (beh : Nat → Behavior)
    (req : Request) (route : Route)
    (h : findRoute cfg.routes req.method (urlPathname req.url) =
      some route)
    (ha : authOk req route = true) :
    handleRequest cfg beh req = .json 200 (runRoute route beh) := by
  unfold handleRequest
  rw [h]
  simp [ha]

theorem handleRequest_unauthorized (cfg : Config) (beh : Nat → Behavior)
    (req : Request) (route : Route)
    (h : findRoute cfg.routes req.method (urlPathname req.url) =
      some route)
    (ha : authOk req route = false) :
    handleRequest cfg beh req = .empty 403 := by
  unfold handleRequest
  rw [h]
  simp [ha]

theorem authOk_no_key (req : Request) (route : Route)
    (h : route.bearerKey = none ∨ route.bearerKey = some "") :
    authOk req route = true := by
  unfold authOk
  rcases h with h | h
  · rw [h]
  · rw [h]
    simp

theorem authOk_key (req : Request) (route : Route) (key : String)
    (h : route.bearerKey = some key) (hne : key ≠ "") :
    authOk req route = decide (getBearerToken req route = some key) := by
  unfold authOk
  rw [h]
  simp [hne]

theorem findRoute_some (routes : List Route) (m p : String) (r : Route)
    (h : findRoute routes m p = some r) :
    r.method = m ∧ r.path = p ∧ r ∈ routes := by
  unfold findRoute at h
  have h1 := List.find?_some h
  have h2 := List.mem_of_find?_eq_some h
  simp only [decide_eq_true_eq] at h1
  exact ⟨h1.1, h1.2, h2⟩

theorem findRoute_none_iff (routes : List Route) (m p : String) :
    findRoute routes m p = none ↔
      ∀ r ∈ routes, ¬ (r.method = m ∧ r.path = p) := by
  unfold findRoute
  rw [List.find?_eq_none]
  constructor
  · intro h r hr
    have := h r hr
    simpa using this
  · intro h r hr
    simpa using h r hr

theorem takeWhile_append_of_all (p : Char → Bool) (xs ys : List Char)
    (h : ∀ c ∈ xs, p c = true) :
    (xs ++ ys).takeWhile p = xs ++ ys.takeWhile p := by
  induction xs with
  | nil => simp
  | cons a as ihx =>
    simp only [List.cons_append, List.takeWhile_cons]
    rw [h a (by simp)]
    simp only [if_true]
    rw [ihx fun c hc => h c (by simp [hc])]

theorem urlPathname_of_no_meta (p : String)
    (h : ∀ c ∈ p.data, c ≠ '?' ∧ c ≠ '#') :
    urlPathname p = p := by
  unfold urlPathname
  have hall : ∀ c ∈ p.data, (c != '?' && c != '#') = true := by
    intro c hc
    have := h c hc
    simp [this.1, this.2]
  rw [List.takeWhile_eq_self_iff.mpr hall]

theorem urlPathname_drops_query (p q : String)
    (h : ∀ c ∈ p.data, c ≠ '?' ∧ c ≠ '#') :
    urlPathname (p ++ "?" ++ q) = p := by
  unfold urlPathname
  have hdata : (p ++ "?" ++ q).data = p.data ++ ('?' :: q.data) := by
    simp [String.data_append]
  rw [hdata]
  have hall : ∀ c ∈ p.data, (c != '?' && c != '#') = true := by
    intro c hc
    have := h c hc
    simp [this.1, this.2]
  rw [takeWhile_append_of_all _ _ _ hall]
  simp [List.takeWhile_cons]

/-! ## Claim theorems -/

/-- Claim C9: Command Spec argument normalization always yields the
one-level flattening of the schema-shaped argument array with every
element stringified, and normalizing an already-flat sequence of
strings is a no-op. -/
theorem claim_C9 :
    (∀ args : List ArgItem,
      normalizeArgs args =
        ((args.map itemScalars).flatten).map strOfScalar) ∧
    (∀ ss : List String,
      normalizeArgs (ss.map fun s => ArgItem.scalar (ArgScalar.str s)) =
        ss) := by
  constructor
  · intro args
    induction args with
    | nil => rfl
    | cons a rest ih =>
      cases a with
      | scalar a => simp [normalizeArgs, itemScalars, ih]
      | list xs => simp [normalizeArgs, itemScalars, ih]
  · intro ss
    induction ss with
    | nil => rfl
    | cons s rest ih => simp [normalizeArgs, strOfScalar, ih]

/-- Claim C10: in every chain run every returned Command Result except
possibly the last has exit code 0, so the number of exit-0 results is at
least the number of returned results minus one. -/
theorem claim_C10 (T : Nat) (cmds : List Command)
    (beh : Nat → Behavior) :
    (((runCommands T cmds beh).results.dropLast).all
        fun r => r.exitCode = some 0) = true ∧
      (runCommands T cmds beh).results.length ≤
        ((runCommands T cmds beh).results.filter
          fun r => r.exitCode = some 0).length + 1 := by
  constructor
  · rw [List.all_eq_true]
    intro r hr
    simp only [decide_eq_true_eq]
    exact runCommandsAux_dropLast_exit T beh cmds 0 0 r hr
  · exact runCommandsAux_length_le_filter T beh cmds 0 0

/-- Claim C1 counterexample: for a one-command chain whose step exits
with code 1 well inside the deadline, the returned sequence has the full
chain length although not every step exited 0 — refuting the claimed
equivalence "length equals chain length iff every step exited 0 and the
deadline did not fire". -/
theorem claim_C1_counterexample :
    ¬ ((runCommands 100 [cmdEx] behStop).results.length =
          ([cmdEx] : List Command).length ↔
        ((∀ r ∈ (runCommands 100 [cmdEx] behStop).results,
            r.exitCode = some 0) ∧
          (runCommands 100 [cmdEx] behStop).timedOut = false)) := by
  decide

/-- Claim C1 (amended): for a positive configured timeout the returned
sequence never exceeds the chain length, and it has exactly the chain
length iff every step except possibly the last exited with code 0 and
the deadline had not fired when each later step started. -/
theorem claim_C1 (T : Nat) (cmds : List Command) (beh : Nat → Behavior)
    (hT : 0 < T) :
    (runCommands T cmds beh).results.length ≤ cmds.length ∧
      ((runCommands T cmds beh).results.length = cmds.length ↔
        ∀ j, j + 1 < cmds.length →
          ((beh j).exitCode = some 0 ∧ prefixDur beh (j + 1) < T)) := by
  constructor
  · exact runCommandsAux_length_le T beh cmds 0 0
  · have hiff := runCommandsAux_length_eq_iff T beh cmds 0 0 hT
    simpa [prefixDur] using hiff

/-- Witness for C1 at a concrete two-command chain with timeout 100. -/
theorem claim_C1_witness :
    (runCommands 100 [cmdEx, cmdEx] behOk).results.length ≤ 2 :=
  (claim_C1 100 [cmdEx, cmdEx] behOk (by decide)).1

/-- Claim C2: when step `k` (1-indexed) is the first whose exit code is
not 0 (non-zero or null) and the deadline has not fired before step `k`
starts, the run returns exactly `k` results, echoing the specs of
exactly the first `k` chain commands — no later step is spawned. -/
theorem claim_C2 (T : Nat) (cmds : List Command) (beh : Nat → Behavior)
    (k : Nat) (hk1 : 1 ≤ k) (hk : k ≤ cmds.length)
    (hprev : ∀ j, j + 1 < k → (beh j).exitCode = some 0)
    (hfail : (beh (k - 1)).exitCode ≠ some 0)
    (htime : prefixDur beh (k - 1) < T) :
    (runCommands T cmds beh).results.length = k ∧
      (runCommands T cmds beh).results.map
          (fun r => (r.cwd, r.command, r.args)) =
        (cmds.take k).map
          (fun c => (c.cwd, c.command, normalizeArgs c.args)) := by
  have hff := runCommandsAux_firstFail T beh cmds 0 0 k hk1 hk
    (by intro j hj; simpa using hprev j hj)
    (by simpa using hfail)
    (by simpa [prefixDur] using htime)
  refine ⟨hff.1, ?_⟩
  have hmap := runCommandsAux_map_spec T beh cmds 0 0
  rw [hff.1] at hmap
  exact hmap

/-- Witness for C2: a three-command chain whose second step fails to
launch stops after exactly two results. -/
theorem claim_C2_witness :
    (runCommands 100 [cmdEx, cmdEx, cmdEx] behLaunch).results.length =
      2 :=
  (claim_C2 100 [cmdEx, cmdEx, cmdEx] behLaunch 2 (by decide)
    (by decide)
    (by intro j hj; have hj0 : j = 0 := (by omega); subst hj0; decide)
    (by decide) (by decide)).1

/-- Claim C3 counterexample: a single 200 ms step against a 100 ms
deadline makes the total execution time exceed the timeout and sets
`timedOut`, yet the returned sequence is the whole one-command chain —
not a strict prefix of it. -/
theorem claim_C3_counterexample :
    100 < ((runCommands 100 [cmdEx] behSlow).results.map
        fun r => r.durationMs).sum ∧
      (runCommands 100 [cmdEx] behSlow).timedOut = true ∧
      ¬ ((runCommands 100 [cmdEx] behSlow).results.length <
          ([cmdEx] : List Command).length) := by
  decide

/-- Claim C3 (amended): when the total execution time of the executed
steps exceeds the route's timeout, the reported `timedOut` is true, the
returned sequence is a prefix of the configured chain (possibly the
whole chain when the deadline fires during the final step), and the
request still gets a 200 JSON response, not an error status. -/
theorem claim_C3 (cfg : Config) (beh : Nat → Behavior) (req : Request)
    (route : Route)
    (hroute : findRoute cfg.routes req.method (urlPathname req.url) =
      some route)
    (hauth : authOk req route = true)
    (hover : route.timeoutMs <
      ((runCommands route.timeoutMs route.commands beh).results.map
        fun r => r.durationMs).sum) :
    handleRequest cfg beh req = .json 200 (runRoute route beh) ∧
      (runRoute route beh).timedOut = true ∧
      (runCommands route.timeoutMs route.commands beh).results.length ≤
        route.commands.length ∧
      (runCommands route.timeoutMs route.commands beh).results.map
          (fun r => (r.cwd, r.command, r.args)) =
        (route.commands.take
            (runCommands route.timeoutMs
              route.commands beh).results.length).map
          (fun c => (c.cwd, c.command, normalizeArgs c.args)) := by
  refine ⟨handleRequest_authorized cfg beh req route hroute hauth, ?_,
    runCommandsAux_length_le _ _ _ 0 0,
    runCommandsAux_map_spec _ _ _ 0 0⟩
  have hres : (runCommands route.timeoutMs route.commands beh).results =
      (runCommandsAux route.timeoutMs beh route.commands 0 0).1 := rfl
  rw [hres] at hover
  have hsnd := runCommandsAux_snd route.timeoutMs beh route.commands 0 0
  show decide (route.timeoutMs ≤
    (runCommandsAux route.timeoutMs beh route.commands 0 0).2) = true
  rw [decide_eq_true_eq, hsnd]
  omega

/-- Witness for C3: the `/health` route run against the 200 ms oracle
reports a timeout. -/
theorem claim_C3_witness :
    (runRoute routeHealth behSlow).timedOut = true :=
  (claim_C3 cfgEx behSlow reqHealth routeHealth (by decide) (by decide)
    (by decide)).2.1

/-- Claim C5 counterexample: the error-event handler of
`runSingleCommand` calls `resolve(bestEffortResult)` and then
`reject(err)` on the same promise; since a promise settles once, the
promise ends resolved with the best-effort result and the rejection is
not observable — refuting "propagates the underlying failure to the
caller as a secondary rejected/thrown signal".  The repository's own
test asserts this resolution ("runSingleCommand resolves with exitCode
null when command not found"). -/
theorem claim_C5_counterexample :
    errorEventHandler errResultEx "spawn ENOENT"
        (PromiseState.pending : PromiseState CommandResult String) =
      PromiseState.resolved errResultEx ∧
      errorEventHandler errResultEx "spawn ENOENT"
          (PromiseState.pending : PromiseState CommandResult String) ≠
        PromiseState.rejected "spawn ENOENT" := by
  constructor
  · rfl
  · decide

/-- Claim C5 (amended): on a launch-level failure `runSingleCommand`
resolves with a best-effort Command Result whose `exitCode` is null; the
subsequent `reject(err)` is a no-op on the already-resolved promise, so
no secondary rejected/thrown signal reaches the caller. -/
theorem claim_C5 (c : Command) (out err : String) (startTs endTs : Nat)
    (e : String) :
    (errorPathResult c out err startTs endTs).exitCode = none ∧
      errorEventHandler (errorPathResult c out err startTs endTs) e
          (PromiseState.pending : PromiseState CommandResult String) =
        PromiseState.resolved (errorPathResult c out err startTs endTs) :=
  ⟨rfl, rfl⟩

/-- Claim C4: for a matched route, a missing or empty `bearerKey` skips
authorization entirely; otherwise the dispatcher extracts the token
exactly as the spec describes (first of `bearer`/`token` query
parameters, or the trimmed remainder of a case-sensitive `Bearer `
header with empty meaning absent — `specExtractToken` transcribes the
spec's words and coincides with the source's `getBearerToken`) and
responds 403 with an empty body exactly when that token is absent or
not string-equal to the key. -/
theorem claim_C4 (cfg : Config) (beh : Nat → Behavior) (req : Request)
    (route : Route)
    (hroute : findRoute cfg.routes req.method (urlPathname req.url) =
      some route) :
    specExtractToken req route = getBearerToken req route ∧
      ((route.bearerKey = none ∨ route.bearerKey = some "") →
        handleRequest cfg beh req = .json 200 (runRoute route beh)) ∧
      (∀ key, route.bearerKey = some key → key ≠ "" →
        ((specExtractToken req route = some key →
            handleRequest cfg beh req = .json 200 (runRoute route beh)) ∧
          (specExtractToken req route ≠ some key →
            handleRequest cfg beh req = .empty 403))) := by
  refine ⟨specExtractToken_eq_getBearerToken req route, ?_, ?_⟩
  · intro h
    exact handleRequest_authorized cfg beh req route hroute
      (authOk_no_key req route h)
  · intro key hkey hne
    have hak := authOk_key req route key hkey hne
    rw [specExtractToken_eq_getBearerToken req route]
    constructor
    · intro htok
      apply handleRequest_authorized cfg beh req route hroute
      rw [hak, decide_eq_true_eq]
      exact htok
    · intro htok
      apply handleRequest_unauthorized cfg beh req route hroute
      rw [hak]
      simp [htok]

/-- Witness for C4: the `/secure` route with a matching header token
executes its chain, and with a wrong query token the `/q` route is
refused with an empty 403. -/
theorem claim_C4_witness :
    handleRequest cfgEx behOk reqSecure =
        .json 200 (runRoute routeSecure behOk) ∧
      handleRequest cfgEx behOk reqQueryBad = .empty 403 :=
  ⟨((claim_C4 cfgEx behOk reqSecure routeSecure (by decide)).2.2
      "secret123" (by decide) (by decide)).1 (by decide),
    ((claim_C4 cfgEx behOk reqQueryBad routeQuery (by decide)).2.2
      "q" (by decide) (by decide)).2 (by decide)⟩

/-- Claim C6: when step `k` of a matched, authorized route's chain is
the first to fail and it fails to launch (`exitCode` null), the chain
stops after exactly `k` results, the result for that step carries the
null exit code, and the request still completes with a 200 JSON
response whose `successCount` counts the `k - 1` prior successes. -/
theorem claim_C6 (cfg : Config) (beh : Nat → Behavior) (req : Request)
    (route : Route) (k : Nat)
    (hroute : findRoute cfg.routes req.method (urlPathname req.url) =
      some route)
    (hauth : authOk req route = true)
    (hk1 : 1 ≤ k) (hk : k ≤ route.commands.length)
    (hprev : ∀ j, j + 1 < k → (beh j).exitCode = some 0)
    (hfail : (beh (k - 1)).exitCode = none)
    (htime : prefixDur beh (k - 1) < route.timeoutMs) :
    handleRequest cfg beh req = .json 200 (runRoute route beh) ∧
      (runCommands route.timeoutMs route.commands beh).results.length =
        k ∧
      ((runCommands route.timeoutMs route.commands beh).results.map
          fun r => r.exitCode) =
        (List.range k).map (fun j => (beh j).exitCode) ∧
      ((runCommands route.timeoutMs route.commands beh).results.map
          fun r => r.exitCode).getLast? = some none ∧
      (runRoute route beh).successCount = k - 1 := by
  have hff := runCommandsAux_firstFail route.timeoutMs beh
    route.commands 0 0 k hk1 hk
    (by intro j hj; simpa using hprev j hj)
    (by simp only [Nat.zero_add]; rw [hfail]; simp)
    (by simpa [prefixDur] using htime)
  have h2 : (runCommands route.timeoutMs
      route.commands beh).results.length = k := hff.1
  have h3 : ((runCommands route.timeoutMs
      route.commands beh).results.map fun r => r.exitCode) =
      (List.range k).map (fun j => (beh j).exitCode) := by
    have hme := runCommandsAux_map_exit route.timeoutMs beh
      route.commands 0 0
    rw [hff.1] at hme
    simpa using hme
  refine ⟨handleRequest_authorized cfg beh req route hroute hauth,
    h2, h3, ?_, hff.2⟩
  rw [h3]
  obtain ⟨m, rfl⟩ : ∃ m, k = m + 1 := ⟨k - 1, by omega⟩
  rw [List.range_succ, List.map_append, List.getLast?_append]
  simpa using hfail

/-- Witness for C6: the `/two` route against the oracle whose second
step fails to launch yields one success out of two commands. -/
theorem claim_C6_witness :
    (runRoute routeTwo behLaunch).successCount = 1 :=
  (claim_C6 cfgEx behLaunch reqTwo routeTwo 2 (by decide) (by decide)
    (by decide) (by decide)
    (by intro j hj; have hj0 : j = 0 := (by omega); subst hj0; decide)
    (by decide) (by decide)).2.2.2.2

/-- Claim C7: route matching is exact string equality of request method
and pathname against each route's method and path — a match certifies
both equalities, no-match is equivalent to no route having exactly that
method and path (so neither trailing slashes nor anything else is
normalized), the query string is cut away before matching and cannot
influence the pathname, and an unmatched request gets an empty-bodied
404 whatever its headers or query were. -/
theorem claim_C7 :
    (∀ (routes : List Route) (m p : String) (r : Route),
        findRoute routes m p = some r →
          r.method = m ∧ r.path = p ∧ r ∈ routes) ∧
      (∀ (routes : List Route) (m p : String),
        findRoute routes m p = none ↔
          ∀ r ∈ routes, ¬ (r.method = m ∧ r.path = p)) ∧
      (∀ p q : String, (∀ c ∈ p.data, c ≠ '?' ∧ c ≠ '#') →
        urlPathname (p ++ "?" ++ q) = p ∧ urlPathname p = p) ∧
      (∀ (cfg : Config) (beh : Nat → Behavior) (req : Request),
        findRoute cfg.routes req.method (urlPathname req.url) = none →
          handleRequest cfg beh req = Response.empty 404) := by
  refine ⟨findRoute_some, findRoute_none_iff, ?_,
    handleRequest_no_route⟩
  intro p q h
  exact ⟨urlPathname_drops_query p q h, urlPathname_of_no_meta p h⟩

/-- Witness for C7: an unregistered target gets an empty 404, a query
string does not leak into the matched pathname, and a trailing slash
fails the exact match. -/
theorem claim_C7_witness :
    handleRequest cfgEx behOk reqNone = Response.empty 404 ∧
      urlPathname ("/q" ++ "?" ++ "bearer=q") = "/q" ∧
      findRoute cfgEx.routes "GET" "/health/" = none :=
  ⟨claim_C7.2.2.2 cfgEx behOk reqNone (by decide),
    (claim_C7.2.2.1 "/q" "bearer=q" (by decide)).1,
    (claim_C7.2.1 cfgEx.routes "GET" "/health/").mpr (by decide)⟩

/-- Claim C8: every successfully dispatched request gets a 200 JSON
body whose `totalCommands` is the configured chain length (not the
executed-result count), whose `successCount` counts exactly the
returned results with exit code 0, and which carries a `commandLogs`
array exactly when the route's `includeLogsInResponse` is set, each
entry holding working directory, executable, arguments, stdout, stderr
and duration while omitting the exit code and timestamps. -/
theorem claim_C8 (cfg : Config) (beh : Nat → Behavior) (req : Request)
    (route : Route)
    (hroute : findRoute cfg.routes req.method (urlPathname req.url) =
      some route)
    (hauth : authOk req route = true) :
    handleRequest cfg beh req = .json 200 (runRoute route beh) ∧
      (runRoute route beh).totalCommands = route.commands.length ∧
      (runRoute route beh).successCount =
        ((runCommands route.timeoutMs route.commands beh).results.filter
          fun r => r.exitCode = some 0).length ∧
      (runRoute route beh).commandLogs =
        (if route.includeLogsInResponse then
          some ((runCommands route.timeoutMs
            route.commands beh).results.map toCommandLog)
        else none) ∧
      ∀ r : CommandResult, toCommandLog r =
        { cwd := r.cwd, command := r.command, args := r.args,
          stdout := r.stdout, stderr := r.stderr,
          durationMs := r.durationMs } :=
  ⟨handleRequest_authorized cfg beh req route hroute hauth, rfl, rfl,
    rfl, fun _ => rfl⟩

/-- Witness for C8: the `/health` route (logs enabled) with the
always-succeeding oracle. -/
theorem claim_C8_witness :
    handleRequest cfgEx behOk reqHealth =
      .json 200 (runRoute routeHealth behOk) :=
  (claim_C8 cfgEx behOk reqHealth routeHealth (by decide)
    (by decide)).1
